import Mathlib

/-!
Verification development for the nightcord-webrtc voice-chat subsystem.

Shallow embedding of the signaling / peer-link logic of
src/voice-room-manager-simple.js, src/voice-room-manager-socketio.js and
src/webrtc-manager.js.  JavaScript Map objects are embedded as association
lists with Map.get / Map.set / Map.delete semantics; the browser
RTCPeerConnection is embedded (per the JSEP signaling-state machine) with
the operations the repository uses: setLocalDescription, setRemoteDescription,
createAnswer and addIceCandidate, each failing exactly in the signaling
states in which a browser raises InvalidStateError.  Errors that the
JavaScript code catches are propagated here as Except values and handled
at the same points the catch blocks sit.
-/

set_option autoImplicit false

/-- Association-list lookup with JavaScript Map.get semantics. -/
def aget {α : Type} (k : String) : List (String × α) → Option α
  | [] => none
  | (k₂, v) :: rest => if k₂ = k then some v else aget k rest

/-- Association-list update with JavaScript Map.set semantics:
replace the binding if the key exists, otherwise append it. -/
def aset {α : Type} (k : String) (v : α) : List (String × α) → List (String × α)
  | [] => [(k, v)]
  | (k₂, v₂) :: rest => if k₂ = k then (k, v) :: rest else (k₂, v₂) :: aset k v rest

/-- Association-list removal with JavaScript Map.delete semantics. -/
def adel {α : Type} (k : String) : List (String × α) → List (String × α)
  | [] => []
  | (k₂, v₂) :: rest => if k₂ = k then rest else (k₂, v₂) :: adel k rest

/-- Keys of an association list. -/
def akeys {α : Type} (l : List (String × α)) : List String :=
  l.map Prod.fst

/-- SDP description type tag, as used in the repository
(setRemoteDescription receives either an offer or an answer). -/
inductive SdpType where
  | offer
  | answer
deriving DecidableEq, Repr

/-- JSEP signaling state of an RTCPeerConnection (the three states the
repository code can reach; rollback is never used). -/
inductive SigSt where
  | stable
  | haveLocalOffer
  | haveRemoteOffer
deriving DecidableEq, Repr

/-- Embedded RTCPeerConnection: local and remote descriptions, the JSEP
signaling state, and the list of remote ICE candidates successfully applied
by addIceCandidate, in application order. -/
structure PC where
  sig : SigSt
  localDesc : Option (SdpType × String)
  remoteDesc : Option (SdpType × String)
  applied : List String
deriving DecidableEq, Repr

/-- A freshly constructed RTCPeerConnection. -/
def freshPC : PC :=
  { sig := SigSt.stable, localDesc := none, remoteDesc := none, applied := [] }

/-- setLocalDescription with an offer: allowed from stable or
have-local-offer, per JSEP. -/
def setLocalOffer (pc : PC) (sdp : String) : Except Unit PC :=
  match pc.sig with
  | SigSt.stable => Except.ok { pc with sig := SigSt.haveLocalOffer, localDesc := some (SdpType.offer, sdp) }
  | SigSt.haveLocalOffer => Except.ok { pc with sig := SigSt.haveLocalOffer, localDesc := some (SdpType.offer, sdp) }
  | SigSt.haveRemoteOffer => Except.error ()

/-- setRemoteDescription with an offer: raises InvalidStateError in the
have-local-offer state, per JSEP. -/
def setRemoteOffer (pc : PC) (sdp : String) : Except Unit PC :=
  match pc.sig with
  | SigSt.haveLocalOffer => Except.error ()
  | _ => Except.ok { pc with sig := SigSt.haveRemoteOffer, remoteDesc := some (SdpType.offer, sdp) }

/-- setRemoteDescription with an answer: only allowed in the
have-local-offer state, per JSEP. -/
def setRemoteAnswer (pc : PC) (sdp : String) : Except Unit PC :=
  match pc.sig with
  | SigSt.haveLocalOffer => Except.ok { pc with sig := SigSt.stable, remoteDesc := some (SdpType.answer, sdp) }
  | _ => Except.error ()

/-- createAnswer followed by setLocalDescription with that answer: only
allowed with a remote offer in place, per JSEP. -/
def setLocalAnswer (pc : PC) (sdp : String) : Except Unit PC :=
  match pc.sig with
  | SigSt.haveRemoteOffer => Except.ok { pc with sig := SigSt.stable, localDesc := some (SdpType.answer, sdp) }
  | _ => Except.error ()

/-- addIceCandidate: raises InvalidStateError while the remote description
is unset, otherwise records the candidate. -/
def pcAddIceCandidate (pc : PC) (cand : String) : Except Unit PC :=
  match pc.remoteDesc with
  | none => Except.error ()
  | some _ => Except.ok { pc with applied := pc.applied ++ [cand] }

/-- A local media track; the repository only manipulates the enabled flag. -/
structure Track where
  enabled : Bool
deriving DecidableEq, Repr

/-- Signaling / presence messages the manager sends through the chat pipe
(broadcastVoiceState and sendSignaling in voice-room-manager-simple.js). -/
inductive Msg where
  | voiceState (username : Option String) (inVoice : Bool) (muted : Bool)
  | offer (to_ : String) (sdp : String) (from_ : Option String)
  | answer (to_ : String) (sdp : String) (from_ : Option String)
  | ice (to_ : String) (cand : String) (from_ : Option String)
deriving DecidableEq, Repr

/-- State of VoiceRoomManagerSimple.  wsConnected embeds the ambient
wsManager.isConnected() environment flag, which no manager operation
changes. -/
structure SimpleManager where
  inVoice : Bool
  localStream : Option (List Track)
  isMuted : Bool
  username : Option String
  roomname : Option String
  peers : List (String × PC)
  remoteStreams : List (String × Nat)
  wsConnected : Bool
deriving DecidableEq, Repr

/-- The manager as built by the constructor, in environment conn. -/
def initialSM (conn : Bool) : SimpleManager :=
  { inVoice := false, localStream := none, isMuted := false,
    username := none, roomname := none, peers := [], remoteStreams := [],
    wsConnected := conn }

/-- broadcastVoiceState: sends the presence envelope when the chat pipe is
connected, otherwise sends nothing. -/
def broadcastVoiceState (s : SimpleManager) : List Msg :=
  if s.wsConnected then [Msg.voiceState s.username s.inVoice s.isMuted] else []

/-- The SDP text of the offer the manager generates toward a remote peer
(the content is opaque to all claims). -/
def offerSdp (remote : String) : String :=
  "offer-for-" ++ remote

/-- The SDP text of the answer the manager generates toward a remote peer. -/
def answerSdp (remote : String) : String :=
  "answer-for-" ++ remote

/-- joinVoiceChat(username, roomname).  mediaOk embeds whether
getUserMedia succeeds.  Returns the new state, the sent messages, and
whether the call re-threw an error. -/
def joinVoiceChat (s : SimpleManager) (u r : String) (mediaOk : Bool) :
    SimpleManager × List Msg × Bool :=
  if s.inVoice then (s, [], false)
  else
    let s₁ := { s with username := some u, roomname := some r }
    if mediaOk then
      let s₂ := { s₁ with localStream := some [{ enabled := true }], inVoice := true }
      (s₂, broadcastVoiceState s₂, false)
    else
      (s₁, [], true)

/-- leaveVoiceChat(): stops the local stream, closes and clears all peer
connections, clears remote streams, sets inVoice false and broadcasts. -/
def leaveVoiceChat (s : SimpleManager) : SimpleManager × List Msg :=
  if s.inVoice then
    let s₁ := { s with localStream := none, peers := [], remoteStreams := [], inVoice := false }
    (s₁, broadcastVoiceState s₁)
  else (s, [])

/-- toggleMute(): flips isMuted, sets every local audio track enabled flag
to the negation of the new value, broadcasts, and returns the new flag;
a warning-only no-op when not in voice or without a stream. -/
def toggleMute (s : SimpleManager) : SimpleManager × List Msg × Bool :=
  if s.inVoice = false ∨ s.localStream = none then (s, [], s.isMuted)
  else
    let m := !s.isMuted
    let s₁ := { s with isMuted := m, localStream := s.localStream.map (fun ts => ts.map (fun _ => { enabled := !m })) }
    (s₁, broadcastVoiceState s₁, m)

/-- removePeer(username): closes and deletes the peer connection and the
remote stream entry for that user, when present. -/
def removePeer (s : SimpleManager) (u : String) : SimpleManager :=
  { s with peers := adel u s.peers, remoteStreams := adel u s.remoteStreams }

/-- createPeerConnection(remote): no-op when a connection already exists;
otherwise builds a fresh connection, stores it, creates and applies a local
offer and sends it (sendSignaling only sends while connected). -/
def createPeerConnection (s : SimpleManager) (remote : String) :
    SimpleManager × List Msg :=
  match aget remote s.peers with
  | some _ => (s, [])
  | none =>
    match setLocalOffer freshPC (offerSdp remote) with
    | Except.error _ => (removePeer { s with peers := aset remote freshPC s.peers } remote, [])
    | Except.ok pc₁ =>
      let s₁ := { s with peers := aset remote pc₁ s.peers }
      (s₁, if s.wsConnected then [Msg.offer remote (offerSdp remote) s.username] else [])

/-- handleVoiceState(data): on a joined presence, if locally in voice and
no link exists, initiate one; on a leave presence, remove the peer. -/
def handleVoiceState (s : SimpleManager) (u : String) (inV : Bool) :
    SimpleManager × List Msg :=
  if inV then
    if s.inVoice ∧ aget u s.peers = none then createPeerConnection s u
    else (s, [])
  else (removePeer s u, [])

/-- handleOffer(from, sdp): create the connection if absent, then apply the
remote offer, create and apply a local answer and send it; on failure of
any of those steps the catch block removes the peer. -/
def handleOffer (s : SimpleManager) (from_ : String) (sdp : String) :
    SimpleManager × List Msg :=
  let s₁ :=
    match aget from_ s.peers with
    | some _ => s
    | none => { s with peers := aset from_ freshPC s.peers }
  match aget from_ s₁.peers with
  | none => (s₁, [])
  | some pc =>
    match setRemoteOffer pc sdp with
    | Except.error _ => (removePeer s₁ from_, [])
    | Except.ok pc₁ =>
      match setLocalAnswer pc₁ (answerSdp from_) with
      | Except.error _ => (removePeer s₁ from_, [])
      | Except.ok pc₂ =>
        let s₂ := { s₁ with peers := aset from_ pc₂ s₁.peers }
        (s₂, if s.wsConnected then [Msg.answer from_ (answerSdp from_) s.username] else [])

/-- handleAnswer(from, sdp): apply the remote answer on the existing
connection; warn-only no-op when no connection exists; on failure the
catch block removes the peer. -/
def handleAnswer (s : SimpleManager) (from_ : String) (sdp : String) :
    SimpleManager × List Msg :=
  match aget from_ s.peers with
  | none => (s, [])
  | some pc =>
    match setRemoteAnswer pc sdp with
    | Except.error _ => (removePeer s from_, [])
    | Except.ok pc₁ => ({ s with peers := aset from_ pc₁ s.peers }, [])

/-- handleIceCandidate(from, candidate): warn-only no-op when no connection
exists; otherwise apply immediately; a failing addIceCandidate is caught
and only logged, dropping the candidate. -/
def handleIceCandidate (s : SimpleManager) (from_ : String) (cand : String) :
    SimpleManager × List Msg :=
  match aget from_ s.peers with
  | none => (s, [])
  | some pc =>
    match pcAddIceCandidate pc cand with
    | Except.error _ => (s, [])
    | Except.ok pc₁ => ({ s with peers := aset from_ pc₁ s.peers }, [])

/-- External events driving VoiceRoomManagerSimple: the public operations
and the routed incoming chat-signaling events. -/
inductive Ev where
  | join (u r : String) (mediaOk : Bool)
  | leave
  | toggleMute
  | voiceState (u : String) (inV : Bool)
  | offer (to_ from_ sdp : String)
  | answer (to_ from_ sdp : String)
  | ice (to_ from_ cand : String)
deriving DecidableEq, Repr

/-- One step of the manager.  Signaling events are routed as
handleChatMessage routes them: a VOICE_STATE envelope is handled only when
its username differs from the local one, a VOICE_SIG envelope only when
addressed to the local username. -/
def step (s : SimpleManager) : Ev → SimpleManager
  | Ev.join u r mediaOk => (joinVoiceChat s u r mediaOk).1
  | Ev.leave => (leaveVoiceChat s).1
  | Ev.toggleMute => (toggleMute s).1
  | Ev.voiceState u inV =>
    if s.username = some u then s else (handleVoiceState s u inV).1
  | Ev.offer to_ from_ sdp =>
    if s.username = some to_ then (handleOffer s from_ sdp).1 else s
  | Ev.answer to_ from_ sdp =>
    if s.username = some to_ then (handleAnswer s from_ sdp).1 else s
  | Ev.ice to_ from_ cand =>
    if s.username = some to_ then (handleIceCandidate s from_ cand).1 else s

/-- Run a sequence of events from a state. -/
def run (s : SimpleManager) (evs : List Ev) : SimpleManager :=
  evs.foldl step s

/-- The manager immediately after a successful join, used as a concrete
base state for counterexample runs. -/
def joinedManager (u : String) : SimpleManager :=
  (joinVoiceChat (initialSM true) u "room" true).1

/-- State of VoiceRoomManagerSocketIO.  The socket field is none when no
socket object exists, some true for a connected socket and some false for
a socket object whose connection attempt failed. -/
structure SockManager where
  inVoice : Bool
  localStream : Option (List Track)
  isMuted : Bool
  username : Option String
  roomname : Option String
  socket : Option Bool
  peers : List (String × PC)
  remoteStreams : List (String × Nat)
  voiceUsers : List String
deriving DecidableEq, Repr

/-- The socket.io manager as built by its constructor. -/
def initialSock : SockManager :=
  { inVoice := false, localStream := none, isMuted := false,
    username := none, roomname := none, socket := none, peers := [],
    remoteStreams := [], voiceUsers := [] }

/-- joinVoiceChat of VoiceRoomManagerSocketIO.  mediaOk embeds whether
getUserMedia succeeds, transportOk whether the socket.io connection
succeeds (connectSignaling assigns this.socket before either outcome).
Returns the new state and whether the call re-threw an error. -/
def joinSock (s : SockManager) (u r : String) (mediaOk transportOk : Bool) :
    SockManager × Bool :=
  if s.inVoice then (s, false)
  else
    let s₁ := { s with username := some u, roomname := some r }
    if mediaOk then
      let s₂ := { s₁ with localStream := some [{ enabled := true }] }
      if transportOk then
        ({ s₂ with socket := some true, inVoice := true }, false)
      else
        ({ s₂ with socket := some false }, true)
    else (s₁, true)

/-- The CRLF line separator _compactDescription splits and joins on. -/
def crlfChars : List Char := ['\r', '\n']

/-- JavaScript String.prototype.split with a non-empty string separator,
embedded on character lists: scan left to right, cutting at each
occurrence of the separator (a trailing separator yields a trailing empty
piece, as in JS). -/
def splitList (sep : List Char) : List Char → List (List Char)
  | [] => [[]]
  | c :: rest =>
    if _hpre : sep.isPrefixOf (c :: rest) ∧ sep ≠ [] then
      [] :: splitList sep (List.drop sep.length (c :: rest))
    else
      match splitList sep rest with
      | [] => [[c]]
      | piece :: t => (c :: piece) :: t
termination_by l => l.length
decreasing_by
  · have hsep : 1 ≤ sep.length := by
      cases sep with
      | nil => exact absurd rfl _hpre.2
      | cons a as => simp
    simp [List.length_drop]
    omega
  · simp

/-- An RTCSessionDescription as _compactDescription sees it: a type tag
and an optional sdp text (absent embeds a falsy sdp field). -/
structure RTCDesc where
  type : String
  sdp : Option String
deriving DecidableEq, Repr

/-- A line counts as a candidate line when it starts with the
a=candidate: attribute marker. -/
def isCandidateLine (l : List Char) : Bool :=
  List.isPrefixOf ("a=candidate:".data) l

/-- The filter-with-counter loop of _compactDescription: candidateCount is
incremented on every candidate line and the line is kept only while the
count stays within maxCandidates; non-candidate lines are always kept. -/
def compactLines (maxCandidates : Int) : Int → List (List Char) → List (List Char)
  | _, [] => []
  | cnt, l :: ls =>
    if isCandidateLine l then
      if cnt + 1 ≤ maxCandidates then l :: compactLines maxCandidates (cnt + 1) ls
      else compactLines maxCandidates (cnt + 1) ls
    else l :: compactLines maxCandidates cnt ls

/-- WebRTCManager._compactDescription: passes through a missing desc, a
falsy (absent or empty) sdp, or a negative maxCandidates; otherwise splits
the sdp on CRLF, limits the candidate lines and rejoins, keeping the type. -/
def compactDescription (maxCandidates : Int) (desc : Option RTCDesc) : Option RTCDesc :=
  match desc with
  | none => none
  | some d =>
    match d.sdp with
    | none => some d
    | some s =>
      if s = "" ∨ maxCandidates < 0 then some d
      else some { type := d.type, sdp := some (String.mk (List.intercalate crlfChars (compactLines maxCandidates 0 (splitList crlfChars s.data)))) }

/-- The constructor's maxCandidates selection: a numeric config value is
used as given, otherwise the default is 4. -/
def defaultMaxCandidates (cfg : Option Int) : Int :=
  cfg.getD 4

/-- Lowercase hex digit for a value below 16, as JSON.stringify emits in
its control-character escapes. -/
def hexDigitChar (n : Nat) : Char :=
  if n < 10 then Char.ofNat (48 + n) else Char.ofNat (87 + n)

/-- The JSON escape JSON.stringify produces for one character of a string:
quote and backslash get two-character escapes, the five named control
characters get their short escapes, the remaining control characters get
a lowercase four-digit unicode escape, and every other scalar is emitted
verbatim. -/
def escapeChar (c : Char) : List Char :=
  if c = '"' then ['\\', '"']
  else if c = '\\' then ['\\', '\\']
  else if c = '\x08' then ['\\', 'b']
  else if c = '\x09' then ['\\', 't']
  else if c = '\x0a' then ['\\', 'n']
  else if c = '\x0c' then ['\\', 'f']
  else if c = '\x0d' then ['\\', 'r']
  else if c.toNat < 32 then ['\\', 'u', '0', '0', hexDigitChar (c.toNat / 16), hexDigitChar (c.toNat % 16)]
  else [c]

/-- JSON string-body escaping of a whole string. -/
def escapeList : List Char → List Char
  | [] => []
  | c :: cs => escapeChar c ++ escapeList cs

/-- JSON text of a boolean. -/
def boolChars (b : Bool) : List Char :=
  if b then "true".data else "false".data

/-- JSON.stringify of the presence envelope object
with fields username, inVoice, muted in insertion order, as
broadcastVoiceState builds it (no whitespace). -/
def jsonStringifyVS (u : List Char) (inV muted : Bool) : List Char :=
  ("\x7b\"username\":\"".data) ++ escapeList u ++ ("\",\"inVoice\":".data) ++ boolChars inV
    ++ (",\"muted\":".data) ++ boolChars muted ++ ("\x7d".data)

/-- The tagged in-band chat string broadcastVoiceState sends: the
VOICE_STATE prefix, the JSON body, and the closing bracket. -/
def encodeVoiceStateMsg (u : List Char) (inV muted : Bool) : List Char :=
  ("[VOICE_STATE:".data) ++ jsonStringifyVS u inV muted ++ ("]".data)

/-- Numeric value of one hex digit, upper or lower case, as JSON.parse
accepts in unicode escapes. -/
def hexVal (c : Char) : Option Nat :=
  if '0' ≤ c ∧ c ≤ '9' then some (c.toNat - 48)
  else if 'a' ≤ c ∧ c ≤ 'f' then some (c.toNat - 87)
  else if 'A' ≤ c ∧ c ≤ 'F' then some (c.toNat - 55)
  else none

/-- The character named by a two-character JSON escape. -/
def unescapeChar (e : Char) : Option Char :=
  if e = '"' then some '"'
  else if e = '\\' then some '\\'
  else if e = '/' then some '/'
  else if e = 'b' then some '\x08'
  else if e = 'f' then some '\x0c'
  else if e = 'n' then some '\x0a'
  else if e = 'r' then some '\x0d'
  else if e = 't' then some '\x09'
  else none

/-- JSON.parse of one escape sequence (the part after a backslash):
either a four-hex-digit unicode escape or a two-character named escape;
returns the decoded character and the remaining input. -/
def parseEscapeSeq : List Char → Option (Char × List Char)
  | [] => none
  | e :: cs =>
    if e = 'u' then
      match cs with
      | h₁ :: h₂ :: h₃ :: h₄ :: cs₃ =>
        match hexVal h₁, hexVal h₂, hexVal h₃, hexVal h₄ with
        | some a, some b, some c₃, some d₄ => some (Char.ofNat (((a * 16 + b) * 16 + c₃) * 16 + d₄), cs₃)
        | _, _, _, _ => none
      | _ => none
    else
      match unescapeChar e with
      | some uc => some (uc, cs)
      | none => none

theorem parseEscapeSeq_length (cs : List Char) (uc : Char) (cs₃ : List Char)
    (h : parseEscapeSeq cs = some (uc, cs₃)) : cs₃.length < cs.length := by
  cases cs with
  | nil => simp [parseEscapeSeq] at h
  | cons e cs₂ =>
    simp only [parseEscapeSeq] at h
    split at h
    · split at h
      · split at h
        · simp only [Option.some.injEq, Prod.mk.injEq] at h
          obtain ⟨h₁, h₂⟩ := h
          subst h₂
          simp
          omega
        · exact absurd h (by simp)
      · exact absurd h (by simp)
    · split at h
      · simp only [Option.some.injEq, Prod.mk.injEq] at h
        obtain ⟨h₁, h₂⟩ := h
        subst h₂
        simp
      · exact absurd h (by simp)

/-- JSON.parse of a string body (after the opening quote), embedded over
unicode scalar values: consumes characters and escape sequences up to the
closing quote and returns the decoded string with the remaining input. -/
def parseStringBody : List Char → Option (List Char × List Char)
  | [] => none
  | c :: cs =>
    if c = '"' then some ([], cs)
    else if c = '\\' then
      match hesc : parseEscapeSeq cs with
      | some (uc, cs₃) =>
        match parseStringBody cs₃ with
        | some (str, rest) => some (uc :: str, rest)
        | none => none
      | none => none
    else if c.toNat < 32 then none
    else
      match parseStringBody cs with
      | some (str, rest) => some (c :: str, rest)
      | none => none
termination_by l => l.length
decreasing_by
  all_goals simp_wf
  exact Nat.lt_succ_of_lt (parseEscapeSeq_length _ _ _ hesc)

/-- Consume an expected literal piece of input, returning the remainder. -/
def stripPre : List Char → List Char → Option (List Char)
  | [], r => some r
  | _ :: _, [] => none
  | p :: ps, c :: cs => if c = p then stripPre ps cs else none

/-- JSON.parse of a boolean literal at the head of the input. -/
def parseBoolPre (l : List Char) : Option (Bool × List Char) :=
  match stripPre ("true".data) l with
  | some r => some (true, r)
  | none =>
    match stripPre ("false".data) l with
    | some r => some (false, r)
    | none => none

/-- JSON.parse restricted to the exact object grammar JSON.stringify
produces for the presence envelope: braces, the three keys in order, a
string body and two booleans. -/
def jsonParseVS (l : List Char) : Option (List Char × Bool × Bool) :=
  match stripPre ("\x7b\"username\":\"".data) l with
  | none => none
  | some l₁ =>
    match parseStringBody l₁ with
    | none => none
    | some (u, l₂) =>
      match stripPre (",\"inVoice\":".data) l₂ with
      | none => none
      | some l₃ =>
        match parseBoolPre l₃ with
        | none => none
        | some (i, l₄) =>
          match stripPre (",\"muted\":".data) l₄ with
          | none => none
          | some (l₅) =>
            match parseBoolPre l₅ with
            | none => none
            | some (m, l₆) =>
              match stripPre ("\x7d".data) l₆ with
              | none => none
              | some l₇ => if l₇ = [] then some (u, i, m) else none

/-- handleChatMessage on a VOICE_STATE message: the startsWith check, the
slice that removes the prefix and the final character, and the JSON parse
of what remains. -/
def decodeVoiceStateMsg (msg : List Char) : Option (List Char × Bool × Bool) :=
  match stripPre ("[VOICE_STATE:".data) msg with
  | none => none
  | some rest => jsonParseVS (List.dropLast rest)

theorem aget_aset_self {α : Type} (k : String) (v : α) (l : List (String × α)) :
    aget k (aset k v l) = some v := by
  induction l with
  | nil => simp [aget, aset]
  | cons p rest ih =>
    obtain ⟨k₂, v₂⟩ := p
    by_cases h : k₂ = k <;> simp [aget, aset, h, ih]

theorem adel_of_aget_none {α : Type} (k : String) (l : List (String × α))
    (h : aget k l = none) : adel k l = l := by
  induction l with
  | nil => simp [adel]
  | cons p rest ih =>
    obtain ⟨k₂, v₂⟩ := p
    by_cases hk : k₂ = k
    · simp [aget, hk] at h
    · simp [aget, hk] at h
      simp [adel, hk, ih h]

theorem akeys_cons {α : Type} (k : String) (v : α) (rest : List (String × α)) :
    akeys ((k, v) :: rest) = k :: akeys rest := rfl

theorem mem_akeys_aset {α : Type} (x k : String) (v : α) (l : List (String × α))
    (h : x ∈ akeys (aset k v l)) : x ∈ akeys l ∨ x = k := by
  induction l with
  | nil => simpa [aset, akeys] using h
  | cons p rest ih =>
    obtain ⟨k₂, v₂⟩ := p
    by_cases hk : k₂ = k
    · rw [aset, if_pos hk, akeys_cons] at h
      rw [akeys_cons]
      rcases List.mem_cons.mp h with h | h
      · right; exact h
      · left; exact List.mem_cons_of_mem _ h
    · rw [aset, if_neg hk, akeys_cons] at h
      rw [akeys_cons]
      rcases List.mem_cons.mp h with h | h
      · left; exact List.mem_cons.mpr (Or.inl h)
      · rcases ih h with h₂ | h₂
        · left; exact List.mem_cons_of_mem _ h₂
        · right; exact h₂

theorem nodup_akeys_aset {α : Type} (k : String) (v : α) (l : List (String × α))
    (h : (akeys l).Nodup) : (akeys (aset k v l)).Nodup := by
  induction l with
  | nil => simp [aset, akeys]
  | cons p rest ih =>
    obtain ⟨k₂, v₂⟩ := p
    rw [akeys_cons, List.nodup_cons] at h
    by_cases hk : k₂ = k
    · rw [aset, if_pos hk, akeys_cons, List.nodup_cons]
      exact ⟨by simpa [hk] using h.1, h.2⟩
    · rw [aset, if_neg hk, akeys_cons, List.nodup_cons]
      refine ⟨fun hmem => ?_, ih h.2⟩
      rcases mem_akeys_aset k₂ k v rest hmem with h₂ | h₂
      · exact h.1 h₂
      · exact hk h₂

theorem akeys_adel_sublist {α : Type} (k : String) (l : List (String × α)) :
    List.Sublist (akeys (adel k l)) (akeys l) := by
  induction l with
  | nil => simp [adel, akeys]
  | cons p rest ih =>
    obtain ⟨k₂, v₂⟩ := p
    by_cases hk : k₂ = k
    · rw [adel, if_pos hk, akeys_cons]
      exact List.sublist_cons_self k₂ (akeys rest)
    · rw [adel, if_neg hk, akeys_cons, akeys_cons]
      exact List.Sublist.cons₂ k₂ ih

theorem nodup_akeys_adel {α : Type} (k : String) (l : List (String × α))
    (h : (akeys l).Nodup) : (akeys (adel k l)).Nodup :=
  h.sublist (akeys_adel_sublist k l)

theorem removePeer_nodup (s : SimpleManager) (u : String)
    (h : (akeys s.peers).Nodup) : (akeys (removePeer s u).peers).Nodup :=
  nodup_akeys_adel u s.peers h

theorem joinVoiceChat_peers (s : SimpleManager) (u r : String) (b : Bool) :
    (joinVoiceChat s u r b).1.peers = s.peers := by
  simp only [joinVoiceChat]
  split
  · rfl
  · split <;> rfl

theorem leaveVoiceChat_nodup (s : SimpleManager)
    (h : (akeys s.peers).Nodup) : (akeys (leaveVoiceChat s).1.peers).Nodup := by
  simp only [leaveVoiceChat]
  split
  · simp [akeys]
  · exact h

theorem toggleMute_peers (s : SimpleManager) :
    (toggleMute s).1.peers = s.peers := by
  simp only [toggleMute]
  split <;> rfl

theorem createPeerConnection_nodup (s : SimpleManager) (u : String)
    (h : (akeys s.peers).Nodup) :
    (akeys (createPeerConnection s u).1.peers).Nodup := by
  simp only [createPeerConnection]
  split
  · exact h
  · split
    · exact nodup_akeys_adel u _ (nodup_akeys_aset u freshPC s.peers h)
    · exact nodup_akeys_aset u _ s.peers h

theorem handleVoiceState_nodup (s : SimpleManager) (u : String) (inV : Bool)
    (h : (akeys s.peers).Nodup) :
    (akeys (handleVoiceState s u inV).1.peers).Nodup := by
  simp only [handleVoiceState]
  split
  · split
    · exact createPeerConnection_nodup s u h
    · exact h
  · exact removePeer_nodup s u h

theorem handleOffer_nodup (s : SimpleManager) (from_ sdp : String)
    (h : (akeys s.peers).Nodup) :
    (akeys (handleOffer s from_ sdp).1.peers).Nodup := by
  simp only [handleOffer]
  have h₁ : (akeys (match aget from_ s.peers with
      | some _ => s
      | none => { s with peers := aset from_ freshPC s.peers }).peers).Nodup := by
    split
    · exact h
    · exact nodup_akeys_aset from_ freshPC s.peers h
  split
  · exact h₁
  · split
    · exact nodup_akeys_adel from_ _ h₁
    · split
      · exact nodup_akeys_adel from_ _ h₁
      · exact nodup_akeys_aset from_ _ _ h₁

theorem handleAnswer_nodup (s : SimpleManager) (from_ sdp : String)
    (h : (akeys s.peers).Nodup) :
    (akeys (handleAnswer s from_ sdp).1.peers).Nodup := by
  simp only [handleAnswer]
  split
  · exact h
  · split
    · exact removePeer_nodup s from_ h
    · exact nodup_akeys_aset from_ _ s.peers h

theorem handleIceCandidate_nodup (s : SimpleManager) (from_ cand : String)
    (h : (akeys s.peers).Nodup) :
    (akeys (handleIceCandidate s from_ cand).1.peers).Nodup := by
  simp only [handleIceCandidate]
  split
  · exact h
  · split
    · exact h
    · exact nodup_akeys_aset from_ _ s.peers h

theorem step_nodup (s : SimpleManager) (e : Ev)
    (h : (akeys s.peers).Nodup) : (akeys (step s e).peers).Nodup := by
  cases e with
  | join u r mediaOk => simpa [step, joinVoiceChat_peers] using h
  | leave => exact leaveVoiceChat_nodup s h
  | toggleMute => simpa [step, toggleMute_peers] using h
  | voiceState u inV =>
    simp only [step]
    split
    · exact h
    · exact handleVoiceState_nodup s u inV h
  | offer to_ from_ sdp =>
    simp only [step]
    split
    · exact handleOffer_nodup s from_ sdp h
    · exact h
  | answer to_ from_ sdp =>
    simp only [step]
    split
    · exact handleAnswer_nodup s from_ sdp h
    · exact h
  | ice to_ from_ cand =>
    simp only [step]
    split
    · exact handleIceCandidate_nodup s from_ cand h
    · exact h

theorem run_nodup (s : SimpleManager) (evs : List Ev)
    (h : (akeys s.peers).Nodup) : (akeys (run s evs).peers).Nodup := by
  induction evs generalizing s with
  | nil => exact h
  | cons e es ih => exact ih (step s e) (step_nodup s e h)

/-- Claim C1 counterexample: in a concrete run, the candidate cand-early
arrives on the link to B before the remote description is applied; it is
neither buffered nor ever applied — after the answer is applied and a later
candidate arrives, the applied-candidate list holds only cand-late, so the
early candidate was dropped, against the claimed buffer-and-flush. -/
theorem claim_C1_counterexample :
    (aget "B" (handleIceCandidate ((handleAnswer ((handleIceCandidate ((createPeerConnection (joinedManager "A") "B").1) "B" "cand-early").1) "B" "answer-sdp").1) "B" "cand-late").1.peers).map PC.applied = some ["cand-late"] := by
  decide

/-- Claim C1 (amended): there is no pending-candidates buffer.  A candidate
for an unknown peer is ignored; a candidate for a known link whose remote
description is unset is attempted immediately, fails, and is dropped with
only a logged error; a candidate arriving after the remote description is
set is applied immediately; and the shared WebRTCManager.addIceCandidate
path likewise applies immediately, propagating the failure to its caller. -/
theorem claim_C1_amended :
    (∀ (s : SimpleManager) (from_ c : String), aget from_ s.peers = none →
      handleIceCandidate s from_ c = (s, []))
    ∧ (∀ (s : SimpleManager) (from_ c : String) (pc : PC),
        aget from_ s.peers = some pc → pc.remoteDesc = none →
        handleIceCandidate s from_ c = (s, []))
    ∧ (∀ (s : SimpleManager) (from_ c : String) (pc : PC),
        aget from_ s.peers = some pc → pc.remoteDesc ≠ none →
        handleIceCandidate s from_ c =
          ({ s with peers := aset from_ { pc with applied := pc.applied ++ [c] } s.peers }, []))
    ∧ (∀ (pc : PC) (c : String), pc.remoteDesc = none →
        pcAddIceCandidate pc c = Except.error ()) := by
  refine ⟨?_, ?_, ?_, ?_⟩
  · intro s from_ c h
    simp [handleIceCandidate, h]
  · intro s from_ c pc h hrd
    simp [handleIceCandidate, h, pcAddIceCandidate, hrd]
  · intro s from_ c pc h hrd
    obtain ⟨d, hd⟩ := Option.ne_none_iff_exists'.mp hrd
    simp [handleIceCandidate, h, pcAddIceCandidate, hd]
  · intro pc c h
    simp [pcAddIceCandidate, h]

/-- Claim C1 witness: the amended statement evaluated at concrete states —
an unknown peer, a known link without a remote description, a known link
with a remote description, and a bare connection without one. -/
theorem claim_C1_amended_witness :
    (handleIceCandidate (initialSM true) "B" "c" = (initialSM true, []))
    ∧ (handleIceCandidate { initialSM true with peers := [("B", freshPC)] } "B" "c"
        = ({ initialSM true with peers := [("B", freshPC)] }, []))
    ∧ (handleIceCandidate { initialSM true with peers := [("B", { freshPC with remoteDesc := some (SdpType.offer, "o") })] } "B" "c"
        = ({ initialSM true with peers := [("B", { freshPC with remoteDesc := some (SdpType.offer, "o"), applied := ["c"] })] }, []))
    ∧ (pcAddIceCandidate freshPC "c" = Except.error ()) := by
  refine ⟨?_, ?_, ?_, ?_⟩
  · exact claim_C1_amended.1 (initialSM true) "B" "c" (by decide)
  · exact claim_C1_amended.2.1 _ "B" "c" freshPC (by decide) (by decide)
  · have h := claim_C1_amended.2.2.1 { initialSM true with peers := [("B", { freshPC with remoteDesc := some (SdpType.offer, "o") })] } "B" "c" { freshPC with remoteDesc := some (SdpType.offer, "o") } (by decide) (by decide)
    simpa [aset, freshPC, initialSM] using h
  · exact claim_C1_amended.2.2.2 freshPC "c" (by decide)

/-- Claim C2: the code contains no lexicographic glare tie-break.  In the
concrete glare run, both A and B (already OFFERING toward each other)
process the incoming offer by applying it as a remote description on the
link that already holds a local offer; that raises InvalidStateError, the
catch block removes the peer, and BOTH sides end with zero peer links and
send nothing — the pair converges to zero active links, not the claimed
exactly one. -/
theorem claim_C2_bug :
    ((handleOffer (createPeerConnection (joinedManager "A") "B").1 "B" (offerSdp "A")).1.peers = []
      ∧ (handleOffer (createPeerConnection (joinedManager "A") "B").1 "B" (offerSdp "A")).2 = [])
    ∧ ((handleOffer (createPeerConnection (joinedManager "B") "A").1 "A" (offerSdp "B")).1.peers = []
      ∧ (handleOffer (createPeerConnection (joinedManager "B") "A").1 "A" (offerSdp "B")).2 = []) := by
  decide

/-- Claim C3 counterexample: a concrete joinVoiceChat on the socket.io
manager in which media succeeds but the signaling transport fails.  The
call re-throws, yet the acquired local stream is retained (not released),
a failed socket object is retained, and username and roomname keep the
values assigned during the call instead of reverting to their prior
(unset) values — partial state IS retained. -/
theorem claim_C3_counterexample :
    (joinSock initialSock "A" "room" true false).2 = true
    ∧ (joinSock initialSock "A" "room" true false).1.localStream = some [{ enabled := true }]
    ∧ (joinSock initialSock "A" "room" true false).1.socket = some false
    ∧ (joinSock initialSock "A" "room" true false).1.username = some "A"
    ∧ (joinSock initialSock "A" "room" true false).1.roomname = some "room" := by
  decide

/-- Claim C3 (amended): a failed join surfaces the error and leaves the
session not joined with the peer set untouched, but it is not free of
partial state: username and roomname keep the values assigned at the start
of the call; on a media failure the stream and socket are untouched, while
on a transport failure after successful media acquisition the acquired
stream and the failed socket object are retained.  The in-band manager
behaves the same on its only failure mode (media denied). -/
theorem claim_C3_amended :
    (∀ (s : SockManager) (u r : String) (mo tr : Bool), s.inVoice = false →
      (mo = false ∨ tr = false) →
      ((joinSock s u r mo tr).2 = true
        ∧ (joinSock s u r mo tr).1.inVoice = false
        ∧ (joinSock s u r mo tr).1.peers = s.peers
        ∧ (joinSock s u r mo tr).1.username = some u
        ∧ (joinSock s u r mo tr).1.roomname = some r
        ∧ (mo = false → (joinSock s u r mo tr).1.localStream = s.localStream
            ∧ (joinSock s u r mo tr).1.socket = s.socket)
        ∧ (mo = true → tr = false →
            (joinSock s u r mo tr).1.localStream = some [{ enabled := true }]
            ∧ (joinSock s u r mo tr).1.socket = some false)))
    ∧ (∀ (s : SimpleManager) (u r : String), s.inVoice = false →
        ((joinVoiceChat s u r false).2.2 = true
          ∧ (joinVoiceChat s u r false).1 = { s with username := some u, roomname := some r })) := by
  constructor
  · intro s u r mo tr hv hfail
    cases mo with
    | false => simp [joinSock, hv]
    | true =>
      cases tr with
      | false => simp [joinSock, hv]
      | true => simp at hfail
  · intro s u r hv
    simp [joinVoiceChat, hv]

/-- Claim C3 witness: the amended statement evaluated at the initial
socket.io manager with a transport failure and at the initial in-band
manager with a media failure. -/
theorem claim_C3_amended_witness :
    ((joinSock initialSock "A" "room" true false).2 = true
      ∧ (joinSock initialSock "A" "room" true false).1.inVoice = false
      ∧ (joinSock initialSock "A" "room" true false).1.peers = initialSock.peers
      ∧ (joinSock initialSock "A" "room" true false).1.username = some "A"
      ∧ (joinSock initialSock "A" "room" true false).1.roomname = some "room"
      ∧ (true = false → (joinSock initialSock "A" "room" true false).1.localStream = initialSock.localStream
          ∧ (joinSock initialSock "A" "room" true false).1.socket = initialSock.socket)
      ∧ (true = true → false = false →
          (joinSock initialSock "A" "room" true false).1.localStream = some [{ enabled := true }]
          ∧ (joinSock initialSock "A" "room" true false).1.socket = some false))
    ∧ ((joinVoiceChat (initialSM true) "A" "room" false).2.2 = true
      ∧ (joinVoiceChat (initialSM true) "A" "room" false).1
          = { initialSM true with username := some "A", roomname := some "room" }) := by
  constructor
  · have h := claim_C3_amended.1 initialSock "A" "room" true false (by decide) (Or.inr rfl)
    exact ⟨h.1, h.2.1, h.2.2.1, h.2.2.2.1, h.2.2.2.2.1,
      h.2.2.2.2.2.1, h.2.2.2.2.2.2⟩
  · exact claim_C3_amended.2 (initialSM true) "A" "room" (by decide)

/-- Claim C4: the spec invariant (not joined implies zero peer links and a
released stream) is the clear intent — handleVoiceState only initiates
links while this.inVoice holds — but handleOffer creates and answers a
link without checking inVoice.  Concretely: join as A, leave, then receive
an offer addressed to A from B; the manager ends with inVoice = false, a
released stream, and a non-empty peer map holding a ghost link to B. -/
theorem claim_C4_bug :
    (run (initialSM true) [Ev.join "A" "room" true, Ev.leave, Ev.offer "A" "B" "sdp-from-B"]).inVoice = false
    ∧ (run (initialSM true) [Ev.join "A" "room" true, Ev.leave, Ev.offer "A" "B" "sdp-from-B"]).localStream = none
    ∧ (run (initialSM true) [Ev.join "A" "room" true, Ev.leave, Ev.offer "A" "B" "sdp-from-B"]).peers ≠ [] := by
  decide

/-- Claim C5: in every reachable state of the in-band manager there is at
most one peer link per remote user (the peer-map keys stay pairwise
distinct under any event sequence), and link creation is idempotent:
createPeerConnection for a username that already has a link returns the
state unchanged and sends nothing, and a joined-presence announcement for
such a username likewise leaves the state unchanged and sends nothing. -/
theorem claim_C5 :
    (∀ (conn : Bool) (evs : List Ev), (akeys (run (initialSM conn) evs).peers).Nodup)
    ∧ (∀ (s : SimpleManager) (u : String) (pc : PC), aget u s.peers = some pc →
        createPeerConnection s u = (s, []))
    ∧ (∀ (s : SimpleManager) (u : String) (pc : PC), aget u s.peers = some pc →
        handleVoiceState s u true = (s, [])) := by
  refine ⟨?_, ?_, ?_⟩
  · intro conn evs
    exact run_nodup (initialSM conn) evs (by simp [initialSM, akeys])
  · intro s u pc h
    simp [createPeerConnection, h]
  · intro s u pc h
    simp [handleVoiceState, h, createPeerConnection]

/-- Claim C5 witness: key uniqueness after a concrete event sequence that
creates a link, and idempotence of creation and of a repeated presence
announcement at a concrete state that already holds a link to B. -/
theorem claim_C5_witness :
    (akeys (run (initialSM true) [Ev.join "A" "room" true, Ev.voiceState "B" true, Ev.voiceState "B" true]).peers).Nodup
    ∧ createPeerConnection { initialSM true with peers := [("B", freshPC)] } "B"
        = ({ initialSM true with peers := [("B", freshPC)] }, [])
    ∧ handleVoiceState { initialSM true with peers := [("B", freshPC)] } "B" true
        = ({ initialSM true with peers := [("B", freshPC)] }, []) := by
  refine ⟨?_, ?_, ?_⟩
  · exact claim_C5.1 true [Ev.join "A" "room" true, Ev.voiceState "B" true, Ev.voiceState "B" true]
  · exact claim_C5.2.1 _ "B" freshPC (by decide)
  · exact claim_C5.2.2 _ "B" freshPC (by decide)

/-- Claim C6 counterexample: leave does not clear all session state.  After
join, toggleMute and leave, the session is not joined and all links and the
stream are gone, but username, roomname and the muted flag keep their
values instead of being cleared. -/
theorem claim_C6_counterexample :
    (run (initialSM true) [Ev.join "A" "room" true, Ev.toggleMute, Ev.leave]).inVoice = false
    ∧ (run (initialSM true) [Ev.join "A" "room" true, Ev.toggleMute, Ev.leave]).username = some "A"
    ∧ (run (initialSM true) [Ev.join "A" "room" true, Ev.toggleMute, Ev.leave]).roomname = some "room"
    ∧ (run (initialSM true) [Ev.join "A" "room" true, Ev.toggleMute, Ev.leave]).isMuted = true := by
  decide

/-- Claim C6 (amended): when joined, leave closes every peer link, clears
the remote-stream map, releases the local stream and sets inVoice false —
but retains username, roomname and the muted flag (and the in-band manager
has no owned transport to disconnect; it broadcasts a leave presence
instead).  A second leave when not joined is a no-op, and removePeer on a
username with no link and no remote stream changes no state. -/
theorem claim_C6_amended :
    (∀ (s : SimpleManager), s.inVoice = true →
      leaveVoiceChat s =
        ({ s with localStream := none, peers := [], remoteStreams := [], inVoice := false },
          if s.wsConnected then [Msg.voiceState s.username false s.isMuted] else []))
    ∧ (∀ (s : SimpleManager), s.inVoice = false → leaveVoiceChat s = (s, []))
    ∧ (∀ (s : SimpleManager) (u : String), aget u s.peers = none →
        aget u s.remoteStreams = none → removePeer s u = s) := by
  refine ⟨?_, ?_, ?_⟩
  · intro s hv
    simp [leaveVoiceChat, hv, broadcastVoiceState]
  · intro s hv
    simp [leaveVoiceChat, hv]
  · intro s u hp hr
    simp [removePeer, adel_of_aget_none u s.peers hp, adel_of_aget_none u s.remoteStreams hr]

/-- Claim C6 witness: the amended statement at a concrete joined state, at
the initial (not-joined) state, and removePeer at a state with no link. -/
theorem claim_C6_amended_witness :
    leaveVoiceChat (joinedManager "A")
      = ({ joinedManager "A" with localStream := none, peers := [], remoteStreams := [], inVoice := false },
          if (joinedManager "A").wsConnected then [Msg.voiceState (joinedManager "A").username false (joinedManager "A").isMuted] else [])
    ∧ leaveVoiceChat (initialSM true) = (initialSM true, [])
    ∧ removePeer (initialSM true) "B" = initialSM true := by
  refine ⟨?_, ?_, ?_⟩
  · exact claim_C6_amended.1 (joinedManager "A") (by decide)
  · exact claim_C6_amended.2.1 (initialSM true) (by decide)
  · exact claim_C6_amended.2.2 (initialSM true) "B" (by decide) (by decide)

/-- Claim C7: when joined with a stream held, toggleMute flips the muted
flag, sets the enabled property of every local audio track to the negation
of the new flag, and returns the new flag; everything else — in particular
the peer map with each link's local and remote descriptions — is
unchanged, and nothing it sends is an offer or an answer (only a presence
broadcast). -/
theorem claim_C7 :
    ∀ (s : SimpleManager) (ts : List Track), s.inVoice = true → s.localStream = some ts →
    toggleMute s =
      ({ s with isMuted := !s.isMuted, localStream := some (ts.map (fun _ => { enabled := !(!s.isMuted) })) },
        if s.wsConnected then [Msg.voiceState s.username true (!s.isMuted)] else [],
        !s.isMuted)
    ∧ (toggleMute s).1.peers = s.peers
    ∧ (∀ m ∈ (toggleMute s).2.1, (∀ t sd f, m ≠ Msg.offer t sd f) ∧ (∀ t sd f, m ≠ Msg.answer t sd f)) := by
  intro s ts hv hs
  have h₁ : toggleMute s =
      ({ s with isMuted := !s.isMuted, localStream := some (ts.map (fun _ => { enabled := !(!s.isMuted) })) },
        if s.wsConnected then [Msg.voiceState s.username true (!s.isMuted)] else [],
        !s.isMuted) := by
    simp [toggleMute, hv, hs, broadcastVoiceState]
  refine ⟨h₁, by rw [h₁], ?_⟩
  rw [h₁]
  intro m hm
  by_cases hw : s.wsConnected
  · simp [hw] at hm
    subst hm
    exact ⟨fun t sd f => by simp, fun t sd f => by simp⟩
  · simp [hw] at hm

/-- Claim C7 witness: toggleMute evaluated at the concrete just-joined
manager: the muted flag flips to true, the track is disabled, the peer map
is untouched and the only message sent is the presence broadcast. -/
theorem claim_C7_witness :
    toggleMute (joinedManager "A")
      = ({ joinedManager "A" with isMuted := !(joinedManager "A").isMuted, localStream := some ([({ enabled := true } : Track)].map (fun _ => ({ enabled := !(!(joinedManager "A").isMuted) } : Track))) },
          if (joinedManager "A").wsConnected then [Msg.voiceState (joinedManager "A").username true (!(joinedManager "A").isMuted)] else [],
          !(joinedManager "A").isMuted)
    ∧ (toggleMute (joinedManager "A")).1.peers = (joinedManager "A").peers
    ∧ (∀ m ∈ (toggleMute (joinedManager "A")).2.1,
        (∀ t sd f, m ≠ Msg.offer t sd f) ∧ (∀ t sd f, m ≠ Msg.answer t sd f)) :=
  claim_C7 (joinedManager "A") [({ enabled := true } : Track)] (by decide) (by decide)

/-- Claim C8: a joined participant observing a joined-presence from a
remote with no existing link creates the link holding a local offer and
sends that offer to the remote; and a participant receiving an offer from
a peer with no existing link creates the link, applies the remote offer,
and replies with an answer to the sender. -/
theorem claim_C8 :
    (∀ (s : SimpleManager) (u : String), s.inVoice = true → aget u s.peers = none →
      s.wsConnected = true →
      aget u (handleVoiceState s u true).1.peers
        = some { sig := SigSt.haveLocalOffer, localDesc := some (SdpType.offer, offerSdp u), remoteDesc := none, applied := [] }
      ∧ (handleVoiceState s u true).2 = [Msg.offer u (offerSdp u) s.username])
    ∧ (∀ (s : SimpleManager) (from_ sdp : String), aget from_ s.peers = none →
        s.wsConnected = true →
        aget from_ (handleOffer s from_ sdp).1.peers
          = some { sig := SigSt.stable, localDesc := some (SdpType.answer, answerSdp from_), remoteDesc := some (SdpType.offer, sdp), applied := [] }
        ∧ (handleOffer s from_ sdp).2 = [Msg.answer from_ (answerSdp from_) s.username]) := by
  constructor
  · intro s u hv hnone hconn
    simp only [handleVoiceState, hv, hnone, createPeerConnection, setLocalOffer, freshPC,
      hconn, if_true, and_self, if_pos]
    constructor
    · exact aget_aset_self u _ s.peers
    · trivial
  · intro s from_ sdp hnone hconn
    simp only [handleOffer, hnone, setRemoteOffer, setLocalAnswer, freshPC, hconn]
    have hget : aget from_ (aset from_ freshPC s.peers) = some freshPC :=
      aget_aset_self from_ freshPC s.peers
    simp only [freshPC] at hget
    simp only [hget]
    constructor
    · exact aget_aset_self from_ _ _
    · trivial

/-- Claim C8 witness: the initiation policy evaluated at the concrete
just-joined manager A — a presence from new remote B yields a stored local
offer and a sent offer, and an incoming offer from unknown B yields a
stored answered link and a sent answer. -/
theorem claim_C8_witness :
    (aget "B" (handleVoiceState (joinedManager "A") "B" true).1.peers
      = some { sig := SigSt.haveLocalOffer, localDesc := some (SdpType.offer, offerSdp "B"), remoteDesc := none, applied := [] }
      ∧ (handleVoiceState (joinedManager "A") "B" true).2
        = [Msg.offer "B" (offerSdp "B") (joinedManager "A").username])
    ∧ (aget "B" (handleOffer (joinedManager "A") "B" "sdp-from-B").1.peers
      = some { sig := SigSt.stable, localDesc := some (SdpType.answer, answerSdp "B"), remoteDesc := some (SdpType.offer, "sdp-from-B"), applied := [] }
      ∧ (handleOffer (joinedManager "A") "B" "sdp-from-B").2
        = [Msg.answer "B" (answerSdp "B") (joinedManager "A").username]) :=
  ⟨claim_C8.1 (joinedManager "A") "B" (by decide) (by decide) (by decide),
    claim_C8.2 (joinedManager "A") "B" "sdp-from-B" (by decide) (by decide)⟩

theorem compactLines_sublist (maxC : Int) (ls : List (List Char)) :
    ∀ cnt : Int, List.Sublist (compactLines maxC cnt ls) ls := by
  induction ls with
  | nil => intro cnt; simp [compactLines]
  | cons l ls ih =>
    intro cnt
    rw [compactLines]
    split
    · split
      · exact List.Sublist.cons₂ l (ih (cnt + 1))
      · exact List.Sublist.cons l (ih (cnt + 1))
    · exact List.Sublist.cons₂ l (ih cnt)

theorem compactLines_filter_noncand (maxC : Int) (ls : List (List Char)) :
    ∀ cnt : Int, (compactLines maxC cnt ls).filter (fun l => !(isCandidateLine l))
      = ls.filter (fun l => !(isCandidateLine l)) := by
  induction ls with
  | nil => intro cnt; simp [compactLines]
  | cons l ls ih =>
    intro cnt
    rw [compactLines]
    by_cases hc : isCandidateLine l
    · rw [if_pos hc]
      split
      · simp [List.filter, hc, ih (cnt + 1)]
      · simp [List.filter, hc, ih (cnt + 1)]
    · rw [if_neg hc]
      simp [List.filter, hc, ih cnt]

theorem compactLines_filter_cand (maxC : Int) (ls : List (List Char)) :
    ∀ cnt : Int, (compactLines maxC cnt ls).filter (fun l => isCandidateLine l)
      = (ls.filter (fun l => isCandidateLine l)).take (maxC - cnt).toNat := by
  induction ls with
  | nil => intro cnt; simp [compactLines]
  | cons l ls ih =>
    intro cnt
    rw [compactLines]
    by_cases hc : isCandidateLine l
    · rw [if_pos hc]
      split
      · have htake : (maxC - cnt).toNat = (maxC - (cnt + 1)).toNat + 1 := by omega
        simp only [List.filter, hc, ih (cnt + 1), htake, List.take_succ_cons]
      · have htake : (maxC - cnt).toNat = 0 := by omega
        have htake₂ : (maxC - (cnt + 1)).toNat = 0 := by omega
        simp [List.filter, hc, ih (cnt + 1), htake, htake₂]
    · rw [if_neg hc]
      simp [List.filter, hc, ih cnt]

/-- Claim C10: for a description carrying an sdp string and a configured
maxCandidates at least 0, _compactDescription keeps the type, keeps the
first maxCandidates a=candidate: lines and removes the remaining candidate
lines, preserves every non-candidate line and the relative order of all
kept lines (the kept lines form a sublist of the original lines), so the
result carries at most maxCandidates candidate lines; with a negative
maxCandidates or without an sdp the input is returned unchanged; and the
constructor default for maxCandidates is 4. -/
theorem claim_C10 :
    (∀ (maxC : Int) (d : RTCDesc) (s : String), 0 ≤ maxC → d.sdp = some s →
      ∃ kept : List (List Char),
        compactDescription maxC (some d) = some { type := d.type, sdp := some (String.mk (List.intercalate crlfChars kept)) }
        ∧ List.Sublist kept (splitList crlfChars s.data)
        ∧ kept.filter (fun l => !(isCandidateLine l)) = (splitList crlfChars s.data).filter (fun l => !(isCandidateLine l))
        ∧ kept.filter (fun l => isCandidateLine l) = ((splitList crlfChars s.data).filter (fun l => isCandidateLine l)).take maxC.toNat
        ∧ (kept.filter (fun l => isCandidateLine l)).length ≤ maxC.toNat)
    ∧ (∀ (maxC : Int) (d : RTCDesc), maxC < 0 → compactDescription maxC (some d) = some d)
    ∧ (∀ (maxC : Int) (d : RTCDesc), d.sdp = none → compactDescription maxC (some d) = some d)
    ∧ defaultMaxCandidates none = 4 := by
  refine ⟨?_, ?_, ?_, rfl⟩
  · intro maxC d s hmax hd
    by_cases hs : s = ""
    · subst hs
      refine ⟨[[]], ?_, ?_, ?_, ?_, ?_⟩
      · have hde : d = { type := d.type, sdp := some "" } := by
          cases d with
          | mk t sd => simp only at hd; simp [hd]
        simp only [compactDescription, hd]
        rw [if_pos (Or.inl trivial)]
        rw [hde]
        simp [List.intercalate, List.intersperse]
      · have hsplit : splitList crlfChars ("".data) = [[]] := by
          simp [splitList]
        rw [hsplit]
      · have hsplit : splitList crlfChars ("".data) = [[]] := by
          simp [splitList]
        rw [hsplit]
      · have hsplit : splitList crlfChars ("".data) = [[]] := by
          simp [splitList]
        rw [hsplit]
        have hnc : isCandidateLine [] = false := by decide
        simp [hnc]
      · have hnc : isCandidateLine [] = false := by decide
        simp [hnc]
    · refine ⟨compactLines maxC 0 (splitList crlfChars s.data), ?_, ?_, ?_, ?_, ?_⟩
      · simp only [compactDescription, hd]
        rw [if_neg (by simp [hs]; omega)]
      · exact compactLines_sublist maxC (splitList crlfChars s.data) 0
      · exact compactLines_filter_noncand maxC (splitList crlfChars s.data) 0
      · simpa using compactLines_filter_cand maxC (splitList crlfChars s.data) 0
      · rw [compactLines_filter_cand maxC (splitList crlfChars s.data) 0]
        simp [List.length_take]
  · intro maxC d hneg
    simp only [compactDescription]
    cases hd : d.sdp with
    | none => rfl
    | some s => simp [hneg]
  · intro maxC d hd
    simp only [compactDescription, hd]

/-- Claim C10 witness: the compaction properties instantiated at a
concrete offer whose sdp holds five candidate lines with maxCandidates 4,
plus the pass-through cases at a negative limit and at a missing sdp. -/
theorem claim_C10_witness :
    (∃ kept : List (List Char),
      compactDescription 4 (some { type := "offer", sdp := some "v=0\r\na=candidate:1\r\na=candidate:2\r\na=candidate:3\r\na=candidate:4\r\na=candidate:5\r\nm=audio" })
        = some { type := "offer", sdp := some (String.mk (List.intercalate crlfChars kept)) }
      ∧ List.Sublist kept (splitList crlfChars ("v=0\r\na=candidate:1\r\na=candidate:2\r\na=candidate:3\r\na=candidate:4\r\na=candidate:5\r\nm=audio".data))
      ∧ kept.filter (fun l => !(isCandidateLine l)) = (splitList crlfChars ("v=0\r\na=candidate:1\r\na=candidate:2\r\na=candidate:3\r\na=candidate:4\r\na=candidate:5\r\nm=audio".data)).filter (fun l => !(isCandidateLine l))
      ∧ kept.filter (fun l => isCandidateLine l) = ((splitList crlfChars ("v=0\r\na=candidate:1\r\na=candidate:2\r\na=candidate:3\r\na=candidate:4\r\na=candidate:5\r\nm=audio".data)).filter (fun l => isCandidateLine l)).take (Int.toNat 4)
      ∧ (kept.filter (fun l => isCandidateLine l)).length ≤ Int.toNat 4)
    ∧ compactDescription (-1) (some { type := "offer", sdp := some "v=0" }) = some { type := "offer", sdp := some "v=0" }
    ∧ compactDescription 7 (some { type := "answer", sdp := none }) = some { type := "answer", sdp := none } := by
  refine ⟨?_, ?_, ?_⟩
  · exact claim_C10.1 4 { type := "offer", sdp := some "v=0\r\na=candidate:1\r\na=candidate:2\r\na=candidate:3\r\na=candidate:4\r\na=candidate:5\r\nm=audio" } "v=0\r\na=candidate:1\r\na=candidate:2\r\na=candidate:3\r\na=candidate:4\r\na=candidate:5\r\nm=audio" (by decide) rfl
  · exact claim_C10.2.1 (-1) { type := "offer", sdp := some "v=0" } (by decide)
  · exact claim_C10.2.2.1 7 { type := "answer", sdp := none } rfl

theorem stripPre_append (p r : List Char) : stripPre p (p ++ r) = some r := by
  induction p with
  | nil => rfl
  | cons c cs ih => simp [stripPre, ih]

theorem stripPre_refl (p : List Char) : stripPre p p = some [] := by
  simpa using stripPre_append p []

theorem hexVal_hexDigitChar : ∀ n : Nat, n < 16 → hexVal (hexDigitChar n) = some n := by
  decide

theorem parseStringBody_quote (l : List Char) : parseStringBody ('"' :: l) = some ([], l) := by
  simp [parseStringBody]

theorem parseEscapeSeq_twochar (e uc : Char) (l : List Char) (hne : ¬e = 'u')
    (h : unescapeChar e = some uc) : parseEscapeSeq (e :: l) = some (uc, l) := by
  simp [parseEscapeSeq, hne, h]

theorem parseStringBody_twochar (e uc : Char) (l str rest : List Char)
    (hne : ¬e = 'u') (h : unescapeChar e = some uc)
    (hp : parseStringBody l = some (str, rest)) :
    parseStringBody ('\\' :: e :: l) = some (uc :: str, rest) := by
  have hseq := parseEscapeSeq_twochar e uc l hne h
  simp only [parseStringBody]
  rw [if_neg (by decide : ¬('\\' : Char) = '"'), if_pos trivial]
  split
  · rename_i uc₂ cs₃ heq
    rw [hseq] at heq
    simp only [Option.some.injEq, Prod.mk.injEq] at heq
    obtain ⟨hu, hl⟩ := heq
    subst hu
    subst hl
    simp [hp]
  · rename_i heq
    rw [hseq] at heq
    simp at heq

theorem parseEscapeSeq_u (h₁ h₂ h₃ h₄ : Char) (n₁ n₂ n₃ n₄ : Nat) (l : List Char)
    (e₁ : hexVal h₁ = some n₁) (e₂ : hexVal h₂ = some n₂)
    (e₃ : hexVal h₃ = some n₃) (e₄ : hexVal h₄ = some n₄) :
    parseEscapeSeq ('u' :: h₁ :: h₂ :: h₃ :: h₄ :: l)
      = some (Char.ofNat (((n₁ * 16 + n₂) * 16 + n₃) * 16 + n₄), l) := by
  simp [parseEscapeSeq, e₁, e₂, e₃, e₄]

theorem parseStringBody_u (h₁ h₂ h₃ h₄ : Char) (n₁ n₂ n₃ n₄ : Nat) (l str rest : List Char)
    (e₁ : hexVal h₁ = some n₁) (e₂ : hexVal h₂ = some n₂)
    (e₃ : hexVal h₃ = some n₃) (e₄ : hexVal h₄ = some n₄)
    (hp : parseStringBody l = some (str, rest)) :
    parseStringBody ('\\' :: 'u' :: h₁ :: h₂ :: h₃ :: h₄ :: l)
      = some (Char.ofNat (((n₁ * 16 + n₂) * 16 + n₃) * 16 + n₄) :: str, rest) := by
  have hseq := parseEscapeSeq_u h₁ h₂ h₃ h₄ n₁ n₂ n₃ n₄ l e₁ e₂ e₃ e₄
  simp only [parseStringBody]
  rw [if_neg (by decide : ¬('\\' : Char) = '"'), if_pos trivial]
  split
  · rename_i uc₂ cs₃ heq
    rw [hseq] at heq
    simp only [Option.some.injEq, Prod.mk.injEq] at heq
    obtain ⟨hu, hl⟩ := heq
    subst hl
    subst hu
    simp [hp]
  · rename_i heq
    rw [hseq] at heq
    simp at heq

theorem parseStringBody_plain (c : Char) (l str rest : List Char)
    (h₁ : ¬c = '"') (h₂ : ¬c = '\\') (h₃ : ¬c.toNat < 32)
    (hp : parseStringBody l = some (str, rest)) :
    parseStringBody (c :: l) = some (c :: str, rest) := by
  simp only [parseStringBody, if_neg h₁, if_neg h₂, if_neg h₃, hp]

theorem parseStringBody_escapeList (u rest : List Char) :
    parseStringBody (escapeList u ++ '"' :: rest) = some (u, rest) := by
  induction u with
  | nil =>
    simp only [escapeList, List.nil_append]
    exact parseStringBody_quote rest
  | cons c cs ih =>
    simp only [escapeList, List.append_assoc]
    by_cases h₁ : c = '"'
    · subst h₁
      rw [show escapeChar '"' = ['\\', '"'] from by decide]
      exact parseStringBody_twochar '"' '"' _ cs rest (by decide) (by decide) ih
    · by_cases h₂ : c = '\\'
      · subst h₂
        rw [show escapeChar '\\' = ['\\', '\\'] from by decide]
        exact parseStringBody_twochar '\\' '\\' _ cs rest (by decide) (by decide) ih
      · by_cases h₃ : c = '\x08'
        · subst h₃
          rw [show escapeChar '\x08' = ['\\', 'b'] from by decide]
          exact parseStringBody_twochar 'b' '\x08' _ cs rest (by decide) (by decide) ih
        · by_cases h₄ : c = '\x09'
          · subst h₄
            rw [show escapeChar '\x09' = ['\\', 't'] from by decide]
            exact parseStringBody_twochar 't' '\x09' _ cs rest (by decide) (by decide) ih
          · by_cases h₅ : c = '\x0a'
            · subst h₅
              rw [show escapeChar '\x0a' = ['\\', 'n'] from by decide]
              exact parseStringBody_twochar 'n' '\x0a' _ cs rest (by decide) (by decide) ih
            · by_cases h₆ : c = '\x0c'
              · subst h₆
                rw [show escapeChar '\x0c' = ['\\', 'f'] from by decide]
                exact parseStringBody_twochar 'f' '\x0c' _ cs rest (by decide) (by decide) ih
              · by_cases h₇ : c = '\x0d'
                · subst h₇
                  rw [show escapeChar '\x0d' = ['\\', 'r'] from by decide]
                  exact parseStringBody_twochar 'r' '\x0d' _ cs rest (by decide) (by decide) ih
                · by_cases h₈ : c.toNat < 32
                  · rw [show escapeChar c = ['\\', 'u', '0', '0', hexDigitChar (c.toNat / 16), hexDigitChar (c.toNat % 16)] from by
                      simp [escapeChar, h₁, h₂, h₃, h₄, h₅, h₆, h₇, h₈]]
                    have e₁ : hexVal '0' = some 0 := by decide
                    have e₃ : hexVal (hexDigitChar (c.toNat / 16)) = some (c.toNat / 16) :=
                      hexVal_hexDigitChar _ (by omega)
                    have e₄ : hexVal (hexDigitChar (c.toNat % 16)) = some (c.toNat % 16) :=
                      hexVal_hexDigitChar _ (by omega)
                    simp only [List.cons_append, List.nil_append]
                    rw [parseStringBody_u '0' '0' (hexDigitChar (c.toNat / 16)) (hexDigitChar (c.toNat % 16)) 0 0 (c.toNat / 16) (c.toNat % 16) (escapeList cs ++ '"' :: rest) cs rest e₁ e₁ e₃ e₄ ih]
                    have harith : ((0 * 16 + 0) * 16 + c.toNat / 16) * 16 + c.toNat % 16 = c.toNat := by
                      omega
                    rw [harith, Char.ofNat_toNat]
                  · rw [show escapeChar c = [c] from by simp [escapeChar, h₁, h₂, h₃, h₄, h₅, h₆, h₇, h₈]]
                    exact parseStringBody_plain c _ cs rest h₁ h₂ h₈ ih

theorem parseBoolPre_append (b : Bool) (r : List Char) :
    parseBoolPre (boolChars b ++ r) = some (b, r) := by
  cases b with
  | true => rfl
  | false => rfl

theorem parseStringBody_mid (u R : List Char) :
    parseStringBody (escapeList u ++ (['"', ',', '"', 'i', 'n', 'V', 'o', 'i', 'c', 'e', '"', ':'] ++ R))
      = some (u, [',', '"', 'i', 'n', 'V', 'o', 'i', 'c', 'e', '"', ':'] ++ R) := by
  rw [show (['"', ',', '"', 'i', 'n', 'V', 'o', 'i', 'c', 'e', '"', ':'] : List Char) ++ R
      = '"' :: ([',', '"', 'i', 'n', 'V', 'o', 'i', 'c', 'e', '"', ':'] ++ R) from rfl]
  exact parseStringBody_escapeList u _

theorem decode_unfold (R : List Char) :
    decodeVoiceStateMsg (("[VOICE_STATE:".data) ++ R) = jsonParseVS R.dropLast := by
  simp only [decodeVoiceStateMsg, stripPre_append]

theorem jsonParseVS_stringify (u : List Char) (i m : Bool) :
    jsonParseVS (jsonStringifyVS u i m) = some (u, i, m) := by
  simp only [jsonStringifyVS, jsonParseVS, List.append_assoc, stripPre_append,
    parseStringBody_mid, parseBoolPre_append, stripPre_refl]
  simp

/-- Claim C9: round-trip identity of the presence envelope.  For every
username string and boolean inVoice and muted flags, encoding the envelope
as the tagged in-band chat string (VOICE_STATE prefix, JSON body, closing
bracket) via broadcastVoiceState and then decoding that string via
handleChatMessage (prefix check, slice removing prefix and final
character, JSON parse) yields exactly the same three fields. -/
theorem claim_C9 : ∀ (u : String) (inV muted : Bool),
    decodeVoiceStateMsg (encodeVoiceStateMsg u.data inV muted) = some (u.data, inV, muted) := by
  intro u inV muted
  have h₁ : encodeVoiceStateMsg u.data inV muted
      = ("[VOICE_STATE:".data) ++ (jsonStringifyVS u.data inV muted ++ ("]".data)) := by
    rw [encodeVoiceStateMsg, List.append_assoc]
  rw [h₁, decode_unfold]
  rw [show ("]".data) = ([']'] : List Char) from rfl, List.dropLast_concat]
  exact jsonParseVS_stringify u.data inV muted
